import Mathlib

/-
  Shallow embedding of the amortization engine of `src/loan_calculator.py`.

  Conventions of the embedding:
  * Python floats are modelled as exact rationals (`ℚ`); `round(x, n)` is
    modelled as round-half-to-even to `n` decimal digits (`pyRound`).
  * `datetime.date` is modelled as a `Date` structure ordered
    lexicographically by (year, month, day), exactly as Python orders dates.
  * `datetime.date.today()` is threaded through as an explicit `today`
    parameter, so every function is a pure function of its inputs.
  * The two `while` loops (`calculate_end_date`, the schedule loop of
    `calculate_interest_breakdown`) and the `for _ in range(300)` loop of
    `calculate_interest_rate` are written as structural recursion on fuel.
    The fuel of `calculate_end_date` is exactly its cap of 1200 months; the
    bisection fuel is exactly its 300 iterations.  The schedule loop of
    `calculate_interest_breakdown` terminates in Python because the current
    date strictly increases month by month past the fixed payoff date; its
    fuel of 1300 exceeds the at most 1201 possible iterations, and the
    fuel-exhausted branch is proved unreachable below.
  * Loop states carry, besides the variables of the Python code, ghost
    fields (`count` is the Python `count` variable of `calculate_end_date`;
    `trace` records every balance produced by a simulation step) used to
    state iteration-count and invariant properties.
-/

/-- Python's `round(x, 0)` on exact values: round half to even, to an
integer. -/
def rheInt (x : ℚ) : ℤ :=
  if x - (⌊x⌋ : ℚ) < 1/2 then ⌊x⌋
  else if 1/2 < x - (⌊x⌋ : ℚ) then ⌊x⌋ + 1
  else if ⌊x⌋ % 2 = 0 then ⌊x⌋ else ⌊x⌋ + 1

/-- Python's `round(x, n)`: round half to even at the `n`-th decimal digit. -/
def pyRound (x : ℚ) (n : ℕ) : ℚ :=
  (rheInt (x * 10 ^ n) : ℚ) / 10 ^ n

/-- Calendar date, year/month/day, compared lexicographically like
`datetime.date`. -/
structure Date where
  year : ℕ
  month : ℕ
  day : ℕ
deriving DecidableEq, Repr

/-- Python's `<=` on `datetime.date`: lexicographic on (year, month, day). -/
def Date.ble (a b : Date) : Bool :=
  a.year < b.year ||
    (a.year == b.year &&
      (a.month < b.month || (a.month == b.month && a.day ≤ b.day)))

/-- `increment_month` of the source: `year + month // 12`,
`month % 12 + 1`, day pinned to 1. -/
def increment_month (d : Date) : Date :=
  ⟨d.year + d.month / 12, d.month % 12 + 1, 1⟩

/-- The month count `(end.year - today.year) * 12 + (end.month - today.month)`
computed (inline) by `calculate_monthly_payment` and
`calculate_interest_rate`. -/
def months_between (today end_date : Date) : ℤ :=
  ((end_date.year : ℤ) - today.year) * 12 + ((end_date.month : ℤ) - today.month)

/-- Linear month index of a date; `increment_month` advances it by exactly
one. Used only in proofs. -/
def Date.idx (d : Date) : ℕ := d.year * 12 + d.month

/-- `calculate_monthly_payment` of the source: closed-form annuity formula.
The `try/except` of the source catches `ZeroDivisionError`; the embedding
returns `none` when a divisor of the formula is zero (float overflow has no
counterpart over `ℚ`). -/
def calculate_monthly_payment (balance interest_rate : ℚ)
    (end_date today : Date) : Option ℚ :=
  let months := months_between today end_date
  if months ≤ 0 then none
  else
    let monthly_rate := interest_rate / 100 / 12
    if monthly_rate = 0 then some (pyRound (balance / (months : ℚ)) 2)
    else if 1 + monthly_rate = 0 then none
    else
      let denom := 1 - (1 + monthly_rate) ^ (-months)
      if denom = 0 then none
      else some (pyRound (balance * monthly_rate / denom) 2)

/-- Loop state of `calculate_end_date`: the Python variables `balance`,
`current`, `count`, plus a flag recording an exit through the
`return None  # Unrepayable` branch and a ghost trace of every balance
written by a simulation step. -/
structure EndState where
  balance : ℚ
  current : Date
  count : ℕ
  unrepayable : Bool
  trace : List ℚ
deriving Repr

/-- The `while balance > 0 and count < max_months` loop of
`calculate_end_date`, by recursion on fuel (the caller passes fuel 1200 =
`max_months`, enough for every iteration the guard permits). -/
def endDateGo (monthly_payment monthly_rate : ℚ) : ℕ → EndState → EndState
  | 0, s => s
  | fuel + 1, s =>
    if 0 < s.balance ∧ s.count < 1200 then
      let interest := s.balance * monthly_rate
      if monthly_payment ≤ interest ∧ 0 < s.count then
        { s with unrepayable := true }
      else
        let balance := max 0 (pyRound (s.balance - (monthly_payment - interest)) 2)
        endDateGo monthly_payment monthly_rate fuel
          { balance := balance
            current := increment_month s.current
            count := s.count + 1
            unrepayable := s.unrepayable
            trace := s.trace ++ [balance] }
    else s

/-- Final loop state of `calculate_end_date` on the given inputs. -/
def endDateFull (balance monthly_payment interest_rate : ℚ) (today : Date) :
    EndState :=
  endDateGo monthly_payment (interest_rate / 100 / 12) 1200
    ⟨balance, today, 0, false, []⟩

/-- `calculate_end_date` of the source: iterative payoff simulation.
Returns `none` on `monthly_payment <= 0`, on the unrepayable exit, and when
the loop ends with `count` at the 1200 cap. -/
def calculate_end_date (balance monthly_payment interest_rate : ℚ)
    (today : Date) : Option Date :=
  if monthly_payment ≤ 0 then none
  else
    let s := endDateFull balance monthly_payment interest_rate today
    if s.unrepayable then none
    else if s.count < 1200 then some s.current else none

/-- The `for _ in range(300)` bisection loop of `calculate_interest_rate`,
by recursion on fuel; also returns the number of iterations executed. -/
def rateGo (balance monthly_payment : ℚ) (end_date today : Date) :
    ℕ → ℚ → ℚ → Option ℚ × ℕ
  | 0, _, _ => (none, 0)
  | fuel + 1, low, high =>
    let mid := (low + high) / 2
    match calculate_monthly_payment balance mid end_date today with
    | none => (none, 1)
    | some estimated =>
      if |estimated - monthly_payment| < 1/100 then (some (pyRound mid 4), 1)
      else if monthly_payment < estimated then
        let r := rateGo balance monthly_payment end_date today fuel low mid
        (r.1, r.2 + 1)
      else
        let r := rateGo balance monthly_payment end_date today fuel mid high
        (r.1, r.2 + 1)

/-- `calculate_interest_rate` of the source: bisection over
`calculate_monthly_payment` on the rate interval `[0.0001, 100.0]`. -/
def calculate_interest_rate (balance monthly_payment : ℚ)
    (end_date today : Date) : Option ℚ :=
  let months := months_between today end_date
  if months ≤ 0 ∨ monthly_payment ≤ 0 then none
  else if monthly_payment ≤ balance / (months : ℚ) then none
  else (rateGo balance monthly_payment end_date today 300 (1/10000) 100).1

/-- One row of the amortization table of `calculate_interest_breakdown`:
the rounded values interpolated into the row string, in order. -/
structure Row where
  date : Date
  payment : ℚ
  interest : ℚ
  principal : ℚ
  balance : ℚ
deriving DecidableEq, Repr

/-- The `while balance > 0 and current_date <= end_date_calc` loop of
`calculate_interest_breakdown`, by recursion on fuel.  `none` is the
fuel-exhausted sentinel, unreachable for the fuel the caller passes (the
date strictly increases every iteration, so the Python loop runs at most
1201 times). -/
def breakdownGo (monthly_payment monthly_rate : ℚ) (end_date_calc : Date) :
    ℕ → ℚ → Date → List Row → ℚ → Option (List Row × ℚ)
  | 0, balance, current, rows, total =>
    if 0 < balance ∧ Date.ble current end_date_calc then none
    else some (rows, total)
  | fuel + 1, balance, current, rows, total =>
    if 0 < balance ∧ Date.ble current end_date_calc then
      let interest := balance * monthly_rate
      let t :=
        if (current.year = end_date_calc.year ∧ current.month = end_date_calc.month)
            ∨ balance < monthly_payment then
          (balance, balance + interest, (0 : ℚ))
        else
          (monthly_payment - interest, monthly_payment,
            balance - (monthly_payment - interest))
      let balance1 := max 0 (pyRound t.2.2 2)
      let row : Row :=
        ⟨current, pyRound t.2.1 2, pyRound interest 2, pyRound t.1 2, balance1⟩
      let total1 := total + pyRound interest 2
      if balance1 = 0 then some (rows ++ [row], total1)
      else
        breakdownGo monthly_payment monthly_rate end_date_calc fuel balance1
          (increment_month current) (rows ++ [row]) total1
    else some (rows, total)

/-- `calculate_interest_breakdown` of the source, with the string formatting
stripped: the rows of the table plus the final
`round(total_interest_paid, 2)`.  `none` stands for the
"Breakdown cannot be generated" message. -/
def calculate_interest_breakdown (balance monthly_payment interest_rate : ℚ)
    (today : Date) : Option (List Row × ℚ) :=
  let monthly_rate := interest_rate / 100 / 12
  match calculate_end_date balance monthly_payment interest_rate today with
  | none => none
  | some d =>
    match breakdownGo monthly_payment monthly_rate d 1300 balance
        (increment_month today) [] 0 with
    | none => none
    | some (rows, total) => some (rows, pyRound total 2)

/-- Sum of the `principal` column of a list of schedule rows. -/
def sumPrincipal (rows : List Row) : ℚ :=
  (rows.map Row.principal).sum

/-! ### Facts about the rounding function -/

lemma rheInt_eq_floor_or (x : ℚ) : rheInt x = ⌊x⌋ ∨ rheInt x = ⌊x⌋ + 1 := by
  unfold rheInt
  split_ifs <;> simp

lemma rheInt_abs_le (x : ℚ) : |(rheInt x : ℚ) - x| ≤ 1/2 := by
  have h0 : (0:ℚ) ≤ x - ⌊x⌋ := by
    have := Int.floor_le x; linarith
  have h1 : x - ⌊x⌋ < 1 := by
    have := Int.lt_floor_add_one x; linarith
  unfold rheInt
  split_ifs with hf hg hpar <;> rw [abs_sub_le_iff] <;> constructor <;>
    push_cast <;> linarith

lemma rheInt_nonneg {x : ℚ} (hx : 0 ≤ x) : 0 ≤ rheInt x := by
  have hfl : (0:ℤ) ≤ ⌊x⌋ := Int.floor_nonneg.mpr hx
  rcases rheInt_eq_floor_or x with h | h <;> omega

lemma pyRound_abs_le (x : ℚ) (n : ℕ) : |pyRound x n - x| ≤ 1 / (2 * 10 ^ n) := by
  have h10 : (0:ℚ) < 10 ^ n := by positivity
  have h := rheInt_abs_le (x * 10 ^ n)
  have key : pyRound x n - x = ((rheInt (x * 10 ^ n) : ℚ) - x * 10 ^ n) / 10 ^ n := by
    field_simp [pyRound]
    ring
  rw [key, abs_div, abs_of_pos h10, div_le_div_iff h10 (by positivity)]
  nlinarith [abs_nonneg ((rheInt (x * 10 ^ n) : ℚ) - x * 10 ^ n)]

lemma pyRound_two_abs_le (x : ℚ) : |pyRound x 2 - x| ≤ 1 / 200 := by
  have := pyRound_abs_le x 2
  norm_num at this ⊢
  linarith

lemma pyRound_nonneg {x : ℚ} (hx : 0 ≤ x) (n : ℕ) : 0 ≤ pyRound x n := by
  unfold pyRound
  have : (0:ℤ) ≤ rheInt (x * 10 ^ n) := rheInt_nonneg (by positivity)
  positivity

lemma pyRound_zero (n : ℕ) : pyRound 0 n = 0 := by
  unfold pyRound rheInt
  norm_num

/-! ### Facts about dates and `increment_month` -/

lemma increment_month_day (d : Date) : (increment_month d).day = 1 := rfl

lemma increment_month_month (d : Date) :
    1 ≤ (increment_month d).month ∧ (increment_month d).month ≤ 12 := by
  unfold increment_month
  constructor <;> simp <;> omega

lemma idx_increment_month (d : Date) : (increment_month d).idx = d.idx + 1 := by
  unfold increment_month Date.idx
  simp only
  omega

lemma idx_iterate (d : Date) (n : ℕ) :
    (increment_month^[n] d).idx = d.idx + n := by
  induction n generalizing d with
  | zero => simp
  | succ m ih =>
    rw [Function.iterate_succ_apply, ih, idx_increment_month]
    omega

lemma iterate_day_month (d : Date) (n : ℕ) (hn : 1 ≤ n) :
    (increment_month^[n] d).day = 1 ∧ 1 ≤ (increment_month^[n] d).month ∧
      (increment_month^[n] d).month ≤ 12 := by
  induction n generalizing d with
  | zero => omega
  | succ m ih =>
    rw [Function.iterate_succ_apply]
    rcases Nat.eq_zero_or_pos m with hm | hm
    · subst hm
      exact ⟨increment_month_day d, (increment_month_month d).1,
        (increment_month_month d).2⟩
    · exact ih (increment_month d) hm

lemma ble_iff_idx {a b : Date} (ha1 : a.day = 1) (ham : 1 ≤ a.month)
    (ham2 : a.month ≤ 12) (hb1 : b.day = 1) (hbm : 1 ≤ b.month)
    (hbm2 : b.month ≤ 12) : Date.ble a b = true ↔ a.idx ≤ b.idx := by
  unfold Date.ble Date.idx
  simp only [Bool.or_eq_true, Bool.and_eq_true, decide_eq_true_eq, beq_iff_eq]
  omega

lemma date_eq_of_idx {a b : Date} (ha1 : a.day = 1) (ham : 1 ≤ a.month)
    (ham2 : a.month ≤ 12) (hb1 : b.day = 1) (hbm : 1 ≤ b.month)
    (hbm2 : b.month ≤ 12) (h : a.idx = b.idx) : a = b := by
  obtain ⟨ya, ma, da⟩ := a
  obtain ⟨yb, mb, db⟩ := b
  unfold Date.idx at h
  simp only at *
  simp only [Date.mk.injEq]
  omega

lemma year_month_eq_iff_idx {a b : Date} (ham : 1 ≤ a.month)
    (ham2 : a.month ≤ 12) (hbm : 1 ≤ b.month) (hbm2 : b.month ≤ 12) :
    (a.year = b.year ∧ a.month = b.month) ↔ a.idx = b.idx := by
  unfold Date.idx
  omega

/-! ### Facts about the payoff-simulation loop -/

lemma endDateGo_count_mono (p r : ℚ) :
    ∀ (fuel : ℕ) (s : EndState), s.count ≤ (endDateGo p r fuel s).count := by
  intro fuel
  induction fuel with
  | zero => intro s; simp [endDateGo]
  | succ m ih =>
    intro s
    simp only [endDateGo]
    split_ifs with h1 h2
    · simp
    · exact le_trans (Nat.le_succ _) (ih ⟨_, _, _, _, _⟩)
    · simp

lemma endDateGo_count_le (p r : ℚ) :
    ∀ (fuel : ℕ) (s : EndState), s.count ≤ 1200 →
      (endDateGo p r fuel s).count ≤ 1200 := by
  intro fuel
  induction fuel with
  | zero => intro s hs; simpa [endDateGo] using hs
  | succ m ih =>
    intro s hs
    simp only [endDateGo]
    split_ifs with h1 h2
    · simpa using hs
    · exact ih ⟨_, _, _, _, _⟩ (by have := h1.2; show s.count + 1 ≤ 1200; omega)
    · exact hs

lemma endDateGo_current (p r : ℚ) :
    ∀ (fuel : ℕ) (s : EndState),
      (endDateGo p r fuel s).current =
        increment_month^[(endDateGo p r fuel s).count - s.count] s.current := by
  intro fuel
  induction fuel with
  | zero => intro s; simp [endDateGo]
  | succ m ih =>
    intro s
    simp only [endDateGo]
    split_ifs with h1 h2
    · simp
    · have hmono := endDateGo_count_mono p r m
        { balance := max 0 (pyRound (s.balance - (p - s.balance * r)) 2)
          current := increment_month s.current
          count := s.count + 1
          unrepayable := s.unrepayable
          trace := s.trace ++ [max 0 (pyRound (s.balance - (p - s.balance * r)) 2)] }
      rw [ih]
      simp only at hmono ⊢
      have hsplit :
          (endDateGo p r m
            { balance := max 0 (pyRound (s.balance - (p - s.balance * r)) 2)
              current := increment_month s.current
              count := s.count + 1
              unrepayable := s.unrepayable
              trace := s.trace ++ [max 0 (pyRound (s.balance - (p - s.balance * r)) 2)] }).count
            - s.count
          = ((endDateGo p r m
            { balance := max 0 (pyRound (s.balance - (p - s.balance * r)) 2)
              current := increment_month s.current
              count := s.count + 1
              unrepayable := s.unrepayable
              trace := s.trace ++ [max 0 (pyRound (s.balance - (p - s.balance * r)) 2)] }).count
            - (s.count + 1)) + 1 := by omega
      rw [hsplit, Function.iterate_succ_apply]
    · simp

lemma endDateGo_numeric (p r : ℚ) :
    ∀ (fuel : ℕ) (b : ℚ) (c : ℕ) (u : Bool) (tr : List ℚ) (d d' : Date),
      (endDateGo p r fuel ⟨b, d, c, u, tr⟩).balance =
        (endDateGo p r fuel ⟨b, d', c, u, tr⟩).balance ∧
      (endDateGo p r fuel ⟨b, d, c, u, tr⟩).count =
        (endDateGo p r fuel ⟨b, d', c, u, tr⟩).count ∧
      (endDateGo p r fuel ⟨b, d, c, u, tr⟩).unrepayable =
        (endDateGo p r fuel ⟨b, d', c, u, tr⟩).unrepayable ∧
      (endDateGo p r fuel ⟨b, d, c, u, tr⟩).trace =
        (endDateGo p r fuel ⟨b, d', c, u, tr⟩).trace := by
  intro fuel
  induction fuel with
  | zero => intro b c u tr d d'; simp [endDateGo]
  | succ m ih =>
    intro b c u tr d d'
    simp only [endDateGo]
    split_ifs with h1 h2
    · simp
    · exact ih _ _ _ _ _ _
    · simp

lemma endDateGo_trace_nonneg (p r : ℚ) :
    ∀ (fuel : ℕ) (s : EndState), (∀ x ∈ s.trace, 0 ≤ x) →
      ∀ x ∈ (endDateGo p r fuel s).trace, 0 ≤ x := by
  intro fuel
  induction fuel with
  | zero => intro s hs; simpa [endDateGo] using hs
  | succ m ih =>
    intro s hs
    simp only [endDateGo]
    split_ifs with h1 h2
    · exact hs
    · apply ih
      intro x hx
      simp only [List.mem_append, List.mem_singleton] at hx
      rcases hx with hx | hx
      · exact hs x hx
      · subst hx; exact le_max_left _ _
    · exact hs

lemma endDateGo_count_one (p r : ℚ) (fuel : ℕ) (s : EndState)
    (hfuel : 1 ≤ fuel) (hb : 0 < s.balance) (hc : s.count = 0) :
    1 ≤ (endDateGo p r fuel s).count := by
  obtain ⟨m, rfl⟩ : ∃ m, fuel = m + 1 := ⟨fuel - 1, by omega⟩
  simp only [endDateGo]
  have hg : 0 < s.balance ∧ s.count < 1200 := ⟨hb, by omega⟩
  rw [if_pos hg, if_neg (by simp [hc])]
  have := endDateGo_count_mono p r m
    { balance := max 0 (pyRound (s.balance - (p - s.balance * r)) 2)
      current := increment_month s.current
      count := s.count + 1
      unrepayable := s.unrepayable
      trace := s.trace ++ [max 0 (pyRound (s.balance - (p - s.balance * r)) 2)] }
  simp only at this
  omega

lemma calculate_end_date_some_iterate {b p r : ℚ} {t D : Date}
    (hb : 0 < b) (h : calculate_end_date b p r t = some D) :
    ∃ k, 1 ≤ k ∧ k ≤ 1200 ∧ D = increment_month^[k] t := by
  unfold calculate_end_date at h
  by_cases hp : p ≤ 0
  · simp [hp] at h
  · rw [if_neg hp] at h
    by_cases hu : (endDateFull b p r t).unrepayable = true
    · simp [hu] at h
    · rw [if_neg hu] at h
      by_cases hc : (endDateFull b p r t).count < 1200
      · rw [if_pos hc, Option.some.injEq] at h
        refine ⟨(endDateFull b p r t).count, ?_, Nat.le_of_lt hc, ?_⟩
        · exact endDateGo_count_one _ _ 1200 _ (by omega) hb rfl
        · have hcur := endDateGo_current p (r / 100 / 12) 1200 ⟨b, t, 0, false, []⟩
          rw [← h]
          unfold endDateFull
          simpa using hcur
      · simp [hc] at h

/-! ### The solvers depend on the dates only through `months_between` -/

lemma calculate_monthly_payment_congr (b r : ℚ) {e t e' t' : Date}
    (h : months_between t e = months_between t' e') :
    calculate_monthly_payment b r e t = calculate_monthly_payment b r e' t' := by
  unfold calculate_monthly_payment
  rw [h]

lemma rateGo_congr (b p : ℚ) {e t e' t' : Date}
    (h : months_between t e = months_between t' e') :
    ∀ (fuel : ℕ) (lo hi : ℚ),
      rateGo b p e t fuel lo hi = rateGo b p e' t' fuel lo hi := by
  intro fuel
  induction fuel with
  | zero => intro lo hi; rfl
  | succ m ih =>
    intro lo hi
    simp only [rateGo]
    rw [calculate_monthly_payment_congr b ((lo + hi) / 2) h]
    cases calculate_monthly_payment b ((lo + hi) / 2) e' t' with
    | none => rfl
    | some est =>
      simp only
      split_ifs with hconv hgt
      · rfl
      · rw [ih]
      · rw [ih]

lemma calculate_interest_rate_congr (b p : ℚ) {e t e' t' : Date}
    (h : months_between t e = months_between t' e') :
    calculate_interest_rate b p e t = calculate_interest_rate b p e' t' := by
  unfold calculate_interest_rate
  rw [h, rateGo_congr b p h]

lemma endDateFull_congr (b p r : ℚ) (t t' : Date) :
    (endDateFull b p r t).balance = (endDateFull b p r t').balance ∧
    (endDateFull b p r t).count = (endDateFull b p r t').count ∧
    (endDateFull b p r t).unrepayable = (endDateFull b p r t').unrepayable ∧
    (endDateFull b p r t).trace = (endDateFull b p r t').trace :=
  endDateGo_numeric p (r / 100 / 12) 1200 b 0 false [] t t'

/-! ### Facts about the bisection loop -/

lemma rateGo_iterations_le (b p : ℚ) (e t : Date) :
    ∀ (fuel : ℕ) (lo hi : ℚ), (rateGo b p e t fuel lo hi).2 ≤ fuel := by
  intro fuel
  induction fuel with
  | zero => intro lo hi; simp [rateGo]
  | succ m ih =>
    intro lo hi
    simp only [rateGo]
    cases calculate_monthly_payment b ((lo + hi) / 2) e t with
    | none => simp
    | some est =>
      simp only
      split_ifs with hconv hgt
      · simp
      · simpa using Nat.succ_le_succ (ih lo ((lo + hi) / 2))
      · simpa using Nat.succ_le_succ (ih ((lo + hi) / 2) hi)

lemma rateGo_some_mid (b p : ℚ) (e t : Date) :
    ∀ (fuel : ℕ) (lo hi v : ℚ), 1/10000 ≤ lo → hi ≤ 100 → lo < hi →
      (rateGo b p e t fuel lo hi).1 = some v →
      ∃ mid, 1/10000 < mid ∧ mid < 100 ∧ v = pyRound mid 4 := by
  intro fuel
  induction fuel with
  | zero => intro lo hi v _ _ _ h; simp [rateGo] at h
  | succ m ih =>
    intro lo hi v hlo hhi hlt h
    simp only [rateGo] at h
    have hmidlo : lo < (lo + hi) / 2 := by linarith
    have hmidhi : (lo + hi) / 2 < hi := by linarith
    cases hcmp : calculate_monthly_payment b ((lo + hi) / 2) e t with
    | none => rw [hcmp] at h; simp at h
    | some est =>
      rw [hcmp] at h
      simp only at h
      split_ifs at h with hconv hgt
      · simp only [Option.some.injEq] at h
        exact ⟨(lo + hi) / 2, by linarith, by linarith, h.symm⟩
      · exact ih lo ((lo + hi) / 2) v hlo (by linarith) hmidlo h
      · exact ih ((lo + hi) / 2) hi v (by linarith) hhi hmidhi h

/-! ### Facts about the schedule loop -/

lemma abs_add_le_of {a b c d : ℚ} (h1 : |a| ≤ c) (h2 : |b| ≤ d) :
    |a + b| ≤ c + d :=
  le_trans (abs_add a b) (by linarith)

lemma getLast?_cons_of_ne_nil {α : Type} (a : α) {l : List α} (h : l ≠ []) :
    (a :: l).getLast? = l.getLast? := by
  cases l with
  | nil => exact absurd rfl h
  | cons b t => rfl

lemma breakdownGo_spec (p mr : ℚ) (hmr : 0 ≤ mr) (D : Date)
    (hD1 : D.day = 1) (hDm1 : 1 ≤ D.month) (hDm2 : D.month ≤ 12) :
    ∀ (fuel : ℕ) (b : ℚ) (cur : Date) (rows : List Row) (ti : ℚ),
      0 < b → cur.day = 1 → 1 ≤ cur.month → cur.month ≤ 12 →
      cur.idx ≤ D.idx → D.idx < cur.idx + fuel →
      ∃ (new : List Row) (ti' : ℚ),
        breakdownGo p mr D fuel b cur rows ti = some (rows ++ new, ti') ∧
        new ≠ [] ∧
        (∀ (i : ℕ) (h : i < new.length),
          (new.get ⟨i, h⟩).date = increment_month^[i] cur) ∧
        (∀ row ∈ new, row.date.idx ≤ D.idx) ∧
        (∃ last, new.getLast? = some last ∧ last.balance = 0) ∧
        |sumPrincipal new - b| ≤ (new.length : ℚ) / 100 := by
  intro fuel
  induction fuel with
  | zero =>
    intro b cur rows ti _ _ _ _ hle hfuel
    omega
  | succ m ih =>
    intro b cur rows ti hb hday hm1 hm2 hle hfuel
    have hble : Date.ble cur D = true :=
      (ble_iff_idx hday hm1 hm2 hD1 hDm1 hDm2).mpr hle
    simp only [breakdownGo]
    rw [if_pos (show (0 < b ∧ Date.ble cur D = true) from ⟨hb, hble⟩)]
    by_cases hfin : (cur.year = D.year ∧ cur.month = D.month) ∨ b < p
    · -- final-payment branch: balance is zeroed, the loop stops here
      rw [if_pos hfin]
      have hz : max 0 (pyRound ((b, b + b * mr, (0:ℚ)).2.2) 2) = 0 := by
        simp [pyRound_zero]
      simp only [hz]
      rw [if_pos trivial]
      refine ⟨[⟨cur, pyRound ((b, b + b * mr, (0:ℚ)).2.1) 2,
        pyRound (b * mr) 2, pyRound ((b, b + b * mr, (0:ℚ)).1) 2, 0⟩],
        ti + pyRound (b * mr) 2, rfl, by simp, ?_, ?_, ?_, ?_⟩
      · intro i h
        have hi : i = 0 := by
          simp only [List.length_cons, List.length_nil] at h
          omega
        subst hi
        simp
      · intro row hrow
        simp only [List.mem_singleton] at hrow
        subst hrow
        exact hle
      · exact ⟨_, rfl, rfl⟩
      · have h1 := pyRound_two_abs_le b
        simp only [sumPrincipal, List.map_cons, List.map_nil, List.sum_cons,
          List.sum_nil, add_zero, List.length_cons, List.length_nil]
        have h2 : pyRound ((b, b + b * mr, (0:ℚ)).1) 2 = pyRound b 2 := rfl
        rw [h2]
        push_cast
        refine le_trans h1 (by norm_num)
    · -- regular branch
      rw [if_neg hfin]
      push_neg at hfin
      obtain ⟨hnotfin, hpb⟩ := hfin
      have hbmr : 0 ≤ b * mr := mul_nonneg (le_of_lt hb) hmr
      have hxnn : 0 ≤ b - (p - b * mr) := by linarith
      have hrnn : 0 ≤ pyRound ((p - b * mr, p, b - (p - b * mr)).2.2) 2 :=
        pyRound_nonneg hxnn 2
      have hmax : max 0 (pyRound ((p - b * mr, p, b - (p - b * mr)).2.2) 2)
          = pyRound (b - (p - b * mr)) 2 := max_eq_right hrnn
      simp only [hmax]
      have hxr := pyRound_two_abs_le (b - (p - b * mr))
      by_cases hz : pyRound (b - (p - b * mr)) 2 = 0
      · rw [if_pos hz]
        refine ⟨[⟨cur, pyRound ((p - b * mr, p, b - (p - b * mr)).2.1) 2,
          pyRound (b * mr) 2, pyRound ((p - b * mr, p, b - (p - b * mr)).1) 2,
          pyRound (b - (p - b * mr)) 2⟩],
          ti + pyRound (b * mr) 2, rfl, by simp, ?_, ?_, ?_, ?_⟩
        · intro i h
          have hi : i = 0 := by
            simp only [List.length_cons, List.length_nil] at h
            omega
          subst hi
          simp
        · intro row hrow
          simp only [List.mem_singleton] at hrow
          subst hrow
          exact hle
        · exact ⟨_, rfl, hz⟩
        · have h1 := pyRound_two_abs_le (p - b * mr)
          rw [hz] at hxr
          have hx : |b - (p - b * mr)| ≤ 1/200 := by
            rw [← abs_neg]
            simpa using hxr
          simp only [sumPrincipal, List.map_cons, List.map_nil, List.sum_cons,
            List.sum_nil, add_zero, List.length_cons, List.length_nil]
          have key : pyRound ((p - b * mr, p, b - (p - b * mr)).1) 2 - b =
              (pyRound (p - b * mr) 2 - (p - b * mr)) +
                (-(b - (p - b * mr))) := by
            simp only
            ring
          rw [key]
          push_cast
          have step1 : |(pyRound (p - b * mr) 2 - (p - b * mr)) +
              (-(b - (p - b * mr)))| ≤ 1/200 + 1/200 :=
            abs_add_le_of h1 (by rw [abs_neg]; exact hx)
          refine le_trans step1 (by norm_num)
      · rw [if_neg hz]
        have hzpos : 0 < pyRound (b - (p - b * mr)) 2 :=
          lt_of_le_of_ne hrnn (Ne.symm hz)
        have hne : cur.idx ≠ D.idx := by
          intro hidx
          have hym := (year_month_eq_iff_idx hm1 hm2 hDm1 hDm2).mpr hidx
          exact hnotfin hym.1 hym.2
        have hlt : cur.idx < D.idx := lt_of_le_of_ne hle hne
        obtain ⟨new', ti'', heq, hne', hdates', hidx', hlast', hsum'⟩ :=
          ih (pyRound (b - (p - b * mr)) 2) (increment_month cur)
            (rows ++ [⟨cur, pyRound ((p - b * mr, p, b - (p - b * mr)).2.1) 2,
              pyRound (b * mr) 2,
              pyRound ((p - b * mr, p, b - (p - b * mr)).1) 2,
              pyRound (b - (p - b * mr)) 2⟩])
            (ti + pyRound (b * mr) 2) hzpos (increment_month_day cur)
            (increment_month_month cur).1 (increment_month_month cur).2
            (by rw [idx_increment_month]; omega)
            (by rw [idx_increment_month]; omega)
        obtain ⟨last, hlastq, hlast0⟩ := hlast'
        refine ⟨⟨cur, pyRound ((p - b * mr, p, b - (p - b * mr)).2.1) 2,
          pyRound (b * mr) 2, pyRound ((p - b * mr, p, b - (p - b * mr)).1) 2,
          pyRound (b - (p - b * mr)) 2⟩ :: new',
          ti'', ?_, by simp, ?_, ?_, ?_, ?_⟩
        · rw [heq]
          simp
        · intro i h
          cases i with
          | zero => simp
          | succ j =>
            have hj : j < new'.length := by
              simpa using h
            have := hdates' j hj
            rw [Function.iterate_succ_apply]
            simpa using this
        · intro row hrow
          simp only [List.mem_cons] at hrow
          rcases hrow with hrow | hrow
          · subst hrow
            exact hle
          · exact hidx' row hrow
        · exact ⟨last, by rw [getLast?_cons_of_ne_nil _ hne']; exact hlastq,
            hlast0⟩
        · have h1 := pyRound_two_abs_le (p - b * mr)
          have key : sumPrincipal
              (⟨cur, pyRound ((p - b * mr, p, b - (p - b * mr)).2.1) 2,
                pyRound (b * mr) 2,
                pyRound ((p - b * mr, p, b - (p - b * mr)).1) 2,
                pyRound (b - (p - b * mr)) 2⟩ :: new') =
              pyRound (p - b * mr) 2 + sumPrincipal new' := by
            simp [sumPrincipal]
          rw [key]
          have expand : pyRound (p - b * mr) 2 + sumPrincipal new' - b =
              ((pyRound (p - b * mr) 2 - (p - b * mr)) +
                (pyRound (b - (p - b * mr)) 2 - (b - (p - b * mr)))) +
                (sumPrincipal new' - pyRound (b - (p - b * mr)) 2) := by
            ring
          rw [expand]
          have step1 : |(pyRound (p - b * mr) 2 - (p - b * mr)) +
              (pyRound (b - (p - b * mr)) 2 - (b - (p - b * mr)))| ≤
              1/200 + 1/200 := abs_add_le_of h1 hxr
          have := abs_add_le_of step1 hsum'
          refine le_trans this ?_
          simp only [List.length_cons]
          push_cast
          linarith

lemma breakdownGo_balance_nonneg (p mr : ℚ) (D : Date) :
    ∀ (fuel : ℕ) (b : ℚ) (cur : Date) (rows : List Row) (ti : ℚ)
      (rows' : List Row) (ti' : ℚ),
      (∀ row ∈ rows, 0 ≤ row.balance) →
      breakdownGo p mr D fuel b cur rows ti = some (rows', ti') →
      ∀ row ∈ rows', 0 ≤ row.balance := by
  intro fuel
  induction fuel with
  | zero =>
    intro b cur rows ti rows' ti' hrows h
    simp only [breakdownGo] at h
    split_ifs at h with hg
    simp only [Option.some.injEq, Prod.mk.injEq] at h
    exact h.1 ▸ hrows
  | succ m ih =>
    intro b cur rows ti rows' ti' hrows h
    simp only [breakdownGo] at h
    split_ifs at h with hg hc hz hz'
    · simp only [Option.some.injEq, Prod.mk.injEq] at h
      refine h.1 ▸ ?_
      intro row hrow
      rcases List.mem_append.mp hrow with hm | hm
      · exact hrows row hm
      · simp only [List.mem_singleton] at hm
        subst hm
        exact le_max_left _ _
    · refine ih _ _ _ _ _ _ ?_ h
      intro row hrow
      rcases List.mem_append.mp hrow with hm | hm
      · exact hrows row hm
      · simp only [List.mem_singleton] at hm
        subst hm
        exact le_max_left _ _
    · simp only [Option.some.injEq, Prod.mk.injEq] at h
      refine h.1 ▸ ?_
      intro row hrow
      rcases List.mem_append.mp hrow with hm | hm
      · exact hrows row hm
      · simp only [List.mem_singleton] at hm
        subst hm
        exact le_max_left _ _
    · refine ih _ _ _ _ _ _ ?_ h
      intro row hrow
      rcases List.mem_append.mp hrow with hm | hm
      · exact hrows row hm
      · simp only [List.mem_singleton] at hm
        subst hm
        exact le_max_left _ _
    · simp only [Option.some.injEq, Prod.mk.injEq] at h
      exact h.1 ▸ hrows

lemma calculate_interest_breakdown_inv {b p r : ℚ} {t : Date}
    {rows : List Row} {ti : ℚ}
    (h : calculate_interest_breakdown b p r t = some (rows, ti)) :
    ∃ D ti', calculate_end_date b p r t = some D ∧
      breakdownGo p (r / 100 / 12) D 1300 b (increment_month t) [] 0 =
        some (rows, ti') ∧
      ti = pyRound ti' 2 := by
  unfold calculate_interest_breakdown at h
  split at h
  · exact absurd h (by simp)
  · rename_i D hD
    simp only [] at h
    split at h
    · exact absurd h (by simp)
    · rename_i rows0 ti0 hB
      simp only [Option.some.injEq, Prod.mk.injEq] at h
      obtain ⟨hrows, hti⟩ := h
      exact ⟨D, ti0, hD, by rw [hB, hrows], hti.symm⟩

/-! ### The claims -/

section

attribute [local semireducible] Rat.add Rat.mul Rat.inv Rat.sub

set_option maxRecDepth 1000000

set_option maxHeartbeats 2000000

/-- C5: zero-rate special case of the Payment Solver: for every balance
`B > 0` and target date with `months = monthsBetween(evalDate, targetDate) > 0`,
when `annualRatePercent = 0` `calculate_monthly_payment` returns
`round(B / months, 2)`; in particular for `B = 1200` and a target date 12
months out it returns exactly `100.00`. -/
theorem C5_zero_rate_payment :
    (∀ (b : ℚ) (t e : Date), 0 < b → 0 < months_between t e →
      calculate_monthly_payment b 0 e t =
        some (pyRound (b / (months_between t e : ℚ)) 2)) ∧
    calculate_monthly_payment 1200 0 ⟨2026, 3, 1⟩ ⟨2025, 3, 10⟩ = some 100 := by
  constructor
  · intro b t e hb hm
    simp only [calculate_monthly_payment]
    rw [if_neg (by omega), if_pos (by norm_num)]
  · decide

theorem C5_zero_rate_payment_witness :
    (0 < (1200:ℚ) ∧ 0 < months_between ⟨2025, 3, 10⟩ ⟨2026, 3, 1⟩) ∧
    calculate_monthly_payment 1200 0 ⟨2026, 3, 1⟩ ⟨2025, 3, 10⟩ =
      some (pyRound (1200 / (months_between ⟨2025, 3, 10⟩ ⟨2026, 3, 1⟩ : ℚ)) 2) :=
  ⟨⟨by norm_num, by decide⟩,
    C5_zero_rate_payment.1 1200 ⟨2025, 3, 10⟩ ⟨2026, 3, 1⟩ (by norm_num) (by decide)⟩

/-- C8: non-positive horizon is rejected: whenever
`monthsBetween(evalDate, targetDate) ≤ 0` (including a target date in the
same month and year as the evaluation date), `calculate_monthly_payment`
and `calculate_interest_rate` both return `none` before any division by
`months`. -/
theorem C8_nonpositive_horizon :
    ∀ (b p r : ℚ) (t e : Date), months_between t e ≤ 0 →
      calculate_monthly_payment b r e t = none ∧
      calculate_interest_rate b p e t = none := by
  intro b p r t e h
  constructor
  · simp only [calculate_monthly_payment]
    rw [if_pos h]
  · simp only [calculate_interest_rate]
    rw [if_pos (Or.inl h)]

theorem C8_nonpositive_horizon_witness :
    months_between ⟨2025, 5, 10⟩ ⟨2025, 5, 20⟩ ≤ 0 ∧
    (calculate_monthly_payment 5000 7 ⟨2025, 5, 20⟩ ⟨2025, 5, 10⟩ = none ∧
      calculate_interest_rate 5000 200 ⟨2025, 5, 20⟩ ⟨2025, 5, 10⟩ = none) :=
  ⟨by decide, C8_nonpositive_horizon 5000 200 7 ⟨2025, 5, 10⟩ ⟨2025, 5, 20⟩ (by decide)⟩

/-- C9: balance non-negativity invariant: every balance written by a
simulation step of `calculate_end_date` (recorded in the ghost trace) is
non-negative, and every `remainingBalance` recorded in a schedule row of
`calculate_interest_breakdown` is non-negative, for every input — both
loops clamp the updated balance with `max(0, round(..., 2))`. -/
theorem C9_balance_nonneg :
    ∀ (b p r : ℚ) (t : Date),
      (∀ x ∈ (endDateFull b p r t).trace, 0 ≤ x) ∧
      (∀ (rows : List Row) (ti : ℚ),
        calculate_interest_breakdown b p r t = some (rows, ti) →
        ∀ row ∈ rows, 0 ≤ row.balance) := by
  intro b p r t
  constructor
  · exact endDateGo_trace_nonneg p (r / 100 / 12) 1200 ⟨b, t, 0, false, []⟩
      (by simp)
  · intro rows ti h
    obtain ⟨D, ti', hD, hB, hti⟩ := calculate_interest_breakdown_inv h
    exact breakdownGo_balance_nonneg p (r / 100 / 12) D 1300 b
      (increment_month t) [] 0 rows ti' (by simp) hB

theorem C9_balance_nonneg_witness :
    (10090 : ℚ) ∈ (endDateFull 10000 10 12 ⟨2025, 1, 15⟩).trace ∧
    0 ≤ (10090 : ℚ) :=
  ⟨by decide, (C9_balance_nonneg 10000 10 12 ⟨2025, 1, 15⟩).1 10090 (by decide)⟩

/-- C6: bounded termination: the loop of `calculate_end_date` executes at
most 1200 iterations (`count ≤ 1200`) and returns `none` whenever the cap
is reached, and the bisection loop of `calculate_interest_rate` executes at
most 300 iterations and yields `none` when its iteration budget is
exhausted without convergence; both functions are total by construction. -/
theorem C6_bounded_termination :
    ∀ (b p r : ℚ) (t e : Date) (lo hi : ℚ),
      (endDateFull b p r t).count ≤ 1200 ∧
      ((endDateFull b p r t).count = 1200 → calculate_end_date b p r t = none) ∧
      (rateGo b p e t 300 lo hi).2 ≤ 300 ∧
      (rateGo b p e t 0 lo hi).1 = none := by
  intro b p r t e lo hi
  refine ⟨?_, ?_, rateGo_iterations_le b p e t 300 lo hi, rfl⟩
  · exact endDateGo_count_le p (r / 100 / 12) 1200 ⟨b, t, 0, false, []⟩
      (by norm_num)
  · intro hc
    simp only [calculate_end_date]
    split_ifs with hp hu hlt
    · rfl
    · rfl
    · omega
    · rfl

theorem C6_bounded_termination_witness :
    (endDateFull 13 (1/100) 0 ⟨2025, 1, 15⟩).count = 1200 ∧
    calculate_end_date 13 (1/100) 0 ⟨2025, 1, 15⟩ = none := by
  have h : (endDateFull 13 (1/100) 0 ⟨2025, 1, 15⟩).count = 1200 := by decide
  exact ⟨h, (C6_bounded_termination 13 (1/100) 0 ⟨2025, 1, 15⟩ ⟨2025, 1, 15⟩
    (1/10000) 100).2.1 h⟩

/-- C4 (amended): `calculate_end_date` returns `none` whenever the
unrepayable check (`monthlyPayment ≤ interest` on an iteration with
`count > 0`; the first iteration is exempt) fires — but that check firing
is not the only source of `none`: `none` is also returned when
`monthlyPayment ≤ 0` and when the 1200-iteration cap is reached.  In
particular `calculate_end_date 10000 10 12` returns `none`. -/
theorem C4_unrepayable_amended :
    (∀ (b p r : ℚ) (t : Date), (endDateFull b p r t).unrepayable = true →
      calculate_end_date b p r t = none) ∧
    calculate_end_date 10000 10 12 ⟨2025, 1, 15⟩ = none := by
  constructor
  · intro b p r t h
    simp only [calculate_end_date]
    split_ifs with hp hu hlt <;> first | rfl | exact absurd h hu
  · decide

theorem C4_unrepayable_witness :
    (endDateFull 10000 10 12 ⟨2025, 1, 15⟩).unrepayable = true ∧
    calculate_end_date 10000 10 12 ⟨2025, 1, 15⟩ = none :=
  ⟨by decide, C4_unrepayable_amended.1 10000 10 12 ⟨2025, 1, 15⟩ (by decide)⟩

/-- C4 (counterexample to the claim as stated): with balance 13, payment
0.01 and rate 0 the simulator returns `none` through the 1200-iteration
cap although the unrepayable condition `monthlyPayment ≤ interest` never
holds on any iteration (interest is 0 and the payment is positive), so
"returns None exactly when payment ≤ interest on some iteration after the
first" is false. -/
theorem C4_unrepayable_counterexample :
    calculate_end_date 13 (1/100) 0 ⟨2025, 1, 15⟩ = none ∧
    (endDateFull 13 (1/100) 0 ⟨2025, 1, 15⟩).unrepayable = false := by
  constructor
  · decide
  · decide

lemma iterate_inc_valid (t : Date) (n : ℕ) :
    (increment_month^[n] (increment_month t)).day = 1 ∧
    1 ≤ (increment_month^[n] (increment_month t)).month ∧
    (increment_month^[n] (increment_month t)).month ≤ 12 := by
  cases n with
  | zero =>
    exact ⟨increment_month_day t, (increment_month_month t).1,
      (increment_month_month t).2⟩
  | succ m => exact iterate_day_month (increment_month t) (m + 1) (by omega)

lemma pyRound_four_bounds {mid : ℚ} (h1 : 1/10000 < mid) (h2 : mid < 100) :
    0 < pyRound mid 4 ∧ pyRound mid 4 ≤ 100 := by
  unfold pyRound
  generalize hz : rheInt (mid * 10 ^ 4) = z
  have herr := rheInt_abs_le (mid * 10 ^ 4)
  rw [abs_le, hz] at herr
  have hml : (1:ℚ) < mid * 10 ^ 4 := by linarith
  have hmu : mid * 10 ^ 4 < 1000000 := by linarith
  have hql : (1:ℚ)/2 < (z:ℚ) := by linarith [herr.1]
  have hqu : (z:ℚ) < 1000001 := by linarith [herr.2]
  have hzl : 0 < z := by
    have h0 : (0:ℚ) < (z:ℚ) := by linarith
    exact_mod_cast h0
  have hzu : z ≤ 1000000 := by
    have hlt : z < 1000001 := by exact_mod_cast hqu
    omega
  constructor
  · apply div_pos _ (by norm_num)
    exact_mod_cast hzl
  · rw [div_le_iff (by norm_num)]
    have hcast : (z:ℚ) ≤ 1000000 := by exact_mod_cast hzu
    linarith

/-- C10: Rate Solver output range (implicit): whenever
`calculate_interest_rate` returns a value rather than `none`, that value is
`round(mid, 4)` for some `mid` strictly between `0.0001` and `100.0`, and
hence the returned rate is strictly positive and at most `100`. -/
theorem C10_rate_solver_range :
    ∀ (b p : ℚ) (e t : Date) (v : ℚ),
      calculate_interest_rate b p e t = some v →
      (∃ mid, 1/10000 < mid ∧ mid < 100 ∧ v = pyRound mid 4) ∧
      0 < v ∧ v ≤ 100 := by
  intro b p e t v h
  simp only [calculate_interest_rate] at h
  split_ifs at h with h1 h2
  obtain ⟨mid, hm1, hm2, hv⟩ := rateGo_some_mid b p e t 300 (1/10000) 100 v
    (le_refl _) (by norm_num) (by norm_num) h
  have hbounds := pyRound_four_bounds hm1 hm2
  exact ⟨⟨mid, hm1, hm2, hv⟩, hv ▸ hbounds.1, hv ▸ hbounds.2⟩

theorem C10_rate_solver_range_witness :
    calculate_interest_rate 24000 (106369/100) ⟨2027, 1, 1⟩ ⟨2025, 1, 15⟩ =
      some (29999/5000) ∧
    ((∃ mid, 1/10000 < mid ∧ mid < 100 ∧ (29999/5000 : ℚ) = pyRound mid 4) ∧
      0 < (29999/5000 : ℚ) ∧ (29999/5000 : ℚ) ≤ 100) :=
  ⟨by decide, C10_rate_solver_range 24000 (106369/100) ⟨2027, 1, 1⟩
    ⟨2025, 1, 15⟩ (29999/5000) (by decide)⟩

/-- C2 (amended): for every input with balance > 0, rate ≥ 0 on which
`calculate_end_date` returns a payoff date `D`, the schedule pass of
`calculate_interest_breakdown` succeeds and emits consecutive monthly rows
starting at `increment_month(evalDate)`, every row dated no later than `D`
— but the re-simulation can stop before `D`: the `balance < monthlyPayment`
final-payment branch may zero the balance a month early, so the last row is
dated `D` or earlier, not always exactly `D`. -/
theorem C2_two_pass_amended :
    ∀ (b p r : ℚ) (t D : Date), 0 < b → 0 ≤ r →
      calculate_end_date b p r t = some D →
      ∃ (rows : List Row) (ti : ℚ),
        calculate_interest_breakdown b p r t = some (rows, ti) ∧
        rows ≠ [] ∧
        (∀ (i : ℕ) (h : i < rows.length),
          (rows.get ⟨i, h⟩).date = increment_month^[i + 1] t) ∧
        (∀ row ∈ rows, Date.ble row.date D = true) := by
  intro b p r t D hb hr hD
  obtain ⟨k, hk1, hk2, hDeq⟩ := calculate_end_date_some_iterate hb hD
  have hDv : D.day = 1 ∧ 1 ≤ D.month ∧ D.month ≤ 12 := by
    rw [hDeq]; exact iterate_day_month t k hk1
  have hcur := increment_month_month t
  have hidxD : D.idx = t.idx + k := by rw [hDeq]; exact idx_iterate t k
  obtain ⟨new, ti', heq, hne, hdates, hidx, hlast, hsum⟩ :=
    breakdownGo_spec p (r / 100 / 12) (by positivity) D hDv.1 hDv.2.1 hDv.2.2
      1300 b (increment_month t) [] 0 hb (increment_month_day t) hcur.1 hcur.2
      (by rw [idx_increment_month]; omega)
      (by rw [idx_increment_month]; omega)
  refine ⟨new, pyRound ti' 2, ?_, hne, ?_, ?_⟩
  · unfold calculate_interest_breakdown
    rw [hD]
    simp only [List.nil_append] at heq
    simp only [heq]
  · intro i h
    rw [hdates i h, ← Function.iterate_succ_apply]
  · intro row hrow
    obtain ⟨⟨i, hi⟩, rfl⟩ := List.mem_iff_get.mp hrow
    have hdate := hdates i hi
    have hvalid := iterate_inc_valid t i
    rw [hdate]
    refine (ble_iff_idx hvalid.1 hvalid.2.1 hvalid.2.2
      hDv.1 hDv.2.1 hDv.2.2).mpr ?_
    rw [← hdate]
    exact hidx (new.get ⟨i, hi⟩) (List.mem_iff_get.mpr ⟨⟨i, hi⟩, rfl⟩)

theorem C2_two_pass_witness :
    calculate_end_date 100 101 24 ⟨2025, 1, 15⟩ = some ⟨2025, 3, 1⟩ ∧
    (∃ (rows : List Row) (ti : ℚ),
      calculate_interest_breakdown 100 101 24 ⟨2025, 1, 15⟩ = some (rows, ti) ∧
      rows ≠ [] ∧
      (∀ (i : ℕ) (h : i < rows.length),
        (rows.get ⟨i, h⟩).date = increment_month^[i + 1] (⟨2025, 1, 15⟩ : Date)) ∧
      (∀ row ∈ rows, Date.ble row.date ⟨2025, 3, 1⟩ = true)) :=
  ⟨by decide, C2_two_pass_amended 100 101 24 ⟨2025, 1, 15⟩ ⟨2025, 3, 1⟩
    (by norm_num) (by norm_num) (by decide)⟩

/-- C2 (counterexample to the claim as stated): with balance 100, payment
101, rate 24% the first pass computes payoff date 2025-03-01, but the
schedule pass emits a single row dated 2025-02-01 — the
`balance < monthlyPayment` final-payment branch zeroes the balance one
month before the payoff date, so the last row is not dated `D`. -/
theorem C2_two_pass_counterexample :
    calculate_end_date 100 101 24 ⟨2025, 1, 15⟩ = some ⟨2025, 3, 1⟩ ∧
    calculate_interest_breakdown 100 101 24 ⟨2025, 1, 15⟩ =
      some ([⟨⟨2025, 2, 1⟩, 102, 2, 100, 0⟩], 2) ∧
    (⟨2025, 2, 1⟩ : Date) ≠ ⟨2025, 3, 1⟩ := by
  refine ⟨by decide, by decide, by decide⟩

/-- C7: schedule totals: for every input with balance > 0 and rate ≥ 0 on
which `calculate_interest_breakdown` succeeds, the last emitted row has
`remainingBalance` exactly 0, and the sum of the `principal` column equals
the original balance within the accumulated rounding tolerance of one cent
per row. -/
theorem C7_schedule_totals :
    ∀ (b p r : ℚ) (t : Date) (rows : List Row) (ti : ℚ),
      0 < b → 0 ≤ r →
      calculate_interest_breakdown b p r t = some (rows, ti) →
      (∃ last, rows.getLast? = some last ∧ last.balance = 0) ∧
      |sumPrincipal rows - b| ≤ (rows.length : ℚ) / 100 := by
  intro b p r t rows ti hb hr h
  obtain ⟨D, ti0, hD, hB, hti⟩ := calculate_interest_breakdown_inv h
  obtain ⟨k, hk1, hk2, hDeq⟩ := calculate_end_date_some_iterate hb hD
  have hDv : D.day = 1 ∧ 1 ≤ D.month ∧ D.month ≤ 12 := by
    rw [hDeq]; exact iterate_day_month t k hk1
  have hcur := increment_month_month t
  have hidxD : D.idx = t.idx + k := by rw [hDeq]; exact idx_iterate t k
  obtain ⟨new, ti1, heq, hne, hdates, hidx, hlast, hsum⟩ :=
    breakdownGo_spec p (r / 100 / 12) (by positivity) D hDv.1 hDv.2.1 hDv.2.2
      1300 b (increment_month t) [] 0 hb (increment_month_day t) hcur.1 hcur.2
      (by rw [idx_increment_month]; omega)
      (by rw [idx_increment_month]; omega)
  rw [hB] at heq
  simp only [List.nil_append, Option.some.injEq, Prod.mk.injEq] at heq
  obtain ⟨hrows, -⟩ := heq
  subst hrows
  exact ⟨hlast, hsum⟩

theorem C7_schedule_totals_witness :
    calculate_interest_breakdown 100 101 24 ⟨2025, 1, 15⟩ =
      some ([⟨⟨2025, 2, 1⟩, 102, 2, 100, 0⟩], 2) ∧
    ((∃ last, ([⟨⟨2025, 2, 1⟩, 102, 2, 100, 0⟩] : List Row).getLast? =
        some last ∧ last.balance = 0) ∧
      |sumPrincipal [⟨⟨2025, 2, 1⟩, 102, 2, 100, 0⟩] - 100| ≤
        (([⟨⟨2025, 2, 1⟩, 102, 2, 100, 0⟩] : List Row).length : ℚ) / 100) :=
  ⟨by decide, C7_schedule_totals 100 101 24 ⟨2025, 1, 15⟩
    [⟨⟨2025, 2, 1⟩, 102, 2, 100, 0⟩] 2 (by norm_num) (by norm_num) (by decide)⟩

/-- C1 (amended): for balance 24000, annual rate 6% and a target date 24
months after the evaluation date, `calculate_monthly_payment` returns
1063.69, and `calculate_end_date` on (24000, 1063.69, 6) terminates with
final balance 0 after 25 iterations — one more than the 24 the claim
states — returning the month immediately after the target date (within the
spec's general "to within one month" consistency tolerance).  The one-month
overshoot comes from the per-month rounding of the balance to cents. -/
theorem C1_concrete_scenario_amended :
    ∀ t : Date, 1 ≤ t.month → t.month ≤ 12 →
      calculate_monthly_payment 24000 6 ⟨t.year + 2, t.month, 1⟩ t =
        some (106369/100) ∧
      (endDateFull 24000 (106369/100) 6 t).count = 25 ∧
      (endDateFull 24000 (106369/100) 6 t).balance = 0 ∧
      calculate_end_date 24000 (106369/100) 6 t =
        some (increment_month ⟨t.year + 2, t.month, 1⟩) := by
  intro t h1 h2
  have hm : months_between t ⟨t.year + 2, t.month, 1⟩ =
      months_between ⟨2025, 1, 15⟩ ⟨2027, 1, 1⟩ := by
    have h24 : months_between t ⟨t.year + 2, t.month, 1⟩ = 24 := by
      simp only [months_between]
      push_cast
      ring
    rw [h24]
    decide
  have hc := endDateFull_congr 24000 (106369/100) 6 t ⟨2025, 1, 15⟩
  have hcount : (endDateFull 24000 (106369/100) 6 t).count = 25 := by
    rw [hc.2.1]; decide
  have hbal : (endDateFull 24000 (106369/100) 6 t).balance = 0 := by
    rw [hc.1]; decide
  have hunrep : (endDateFull 24000 (106369/100) 6 t).unrepayable = false := by
    rw [hc.2.2.1]; decide
  have hcur : (endDateFull 24000 (106369/100) 6 t).current =
      increment_month^[25] t := by
    have hgo := endDateGo_current (106369/100) ((6:ℚ) / 100 / 12) 1200
      ⟨24000, t, 0, false, []⟩
    have hcount2 : (endDateGo (106369/100) ((6:ℚ) / 100 / 12) 1200
        ⟨24000, t, 0, false, []⟩).count = 25 := hcount
    show (endDateGo (106369/100) ((6:ℚ) / 100 / 12) 1200
      ⟨24000, t, 0, false, []⟩).current = increment_month^[25] t
    rw [hgo, hcount2]
    rfl
  have hdate : increment_month^[25] t =
      increment_month ⟨t.year + 2, t.month, 1⟩ := by
    have hv := iterate_day_month t 25 (by omega)
    apply date_eq_of_idx hv.1 hv.2.1 hv.2.2 (increment_month_day _)
      (increment_month_month _).1 (increment_month_month _).2
    rw [idx_iterate, idx_increment_month]
    simp only [Date.idx]
    omega
  refine ⟨?_, hcount, hbal, ?_⟩
  · rw [calculate_monthly_payment_congr 24000 6 hm]
    decide
  · simp only [calculate_end_date, hunrep, hcount]
    norm_num
    rw [hcur, hdate]

theorem C1_concrete_scenario_witness :
    (1 ≤ (⟨2025, 1, 15⟩ : Date).month ∧ (⟨2025, 1, 15⟩ : Date).month ≤ 12) ∧
    (calculate_monthly_payment 24000 6 ⟨2027, 1, 1⟩ ⟨2025, 1, 15⟩ =
        some (106369/100) ∧
      (endDateFull 24000 (106369/100) 6 ⟨2025, 1, 15⟩).count = 25 ∧
      (endDateFull 24000 (106369/100) 6 ⟨2025, 1, 15⟩).balance = 0 ∧
      calculate_end_date 24000 (106369/100) 6 ⟨2025, 1, 15⟩ =
        some (increment_month ⟨2027, 1, 1⟩)) :=
  ⟨⟨by decide, by decide⟩,
    C1_concrete_scenario_amended ⟨2025, 1, 15⟩ (by decide) (by decide)⟩

/-- C1 (counterexample to the claim as stated): with evaluation date
2025-01-15 and target date 2027-01-01 (24 months out), the solved payment
is 1063.69 but the simulation does not terminate in exactly 24 iterations
and does not return the target month: it needs 25 iterations and returns
2027-02-01. -/
theorem C1_concrete_scenario_counterexample :
    calculate_monthly_payment 24000 6 ⟨2027, 1, 1⟩ ⟨2025, 1, 15⟩ =
      some (106369/100) ∧
    (endDateFull 24000 (106369/100) 6 ⟨2025, 1, 15⟩).count ≠ 24 ∧
    calculate_end_date 24000 (106369/100) 6 ⟨2025, 1, 15⟩ ≠
      some ⟨2027, 1, 1⟩ := by
  refine ⟨by decide, by decide, by decide⟩

/-- C3 (amended): the round trip on the rate holds at the representative
large-balance case: for balance 24000, true rate 6% and a 24-month
horizon, `calculate_monthly_payment` gives 1063.69 and
`calculate_interest_rate` recovers 5.9998, within the claimed 0.0005
absolute tolerance.  The universal claim fails for small balances (see the
counterexample), because bisection stops at the first midpoint whose
payment is within one cent of the target. -/
theorem C3_rate_roundtrip_amended :
    ∀ (t e : Date), months_between t e = 24 →
      calculate_monthly_payment 24000 6 e t = some (106369/100) ∧
      calculate_interest_rate 24000 (106369/100) e t = some (29999/5000) ∧
      |(29999/5000 : ℚ) - 6| ≤ 5/10000 := by
  intro t e hm
  have hm2 : months_between t e = months_between ⟨2025, 1, 15⟩ ⟨2027, 1, 1⟩ := by
    rw [hm]; decide
  refine ⟨?_, ?_, ?_⟩
  · rw [calculate_monthly_payment_congr 24000 6 hm2]
    decide
  · rw [calculate_interest_rate_congr 24000 (106369/100) hm2]
    decide
  · rw [abs_le]
    norm_num

theorem C3_rate_roundtrip_witness :
    months_between ⟨2025, 1, 15⟩ ⟨2027, 1, 1⟩ = 24 ∧
    (calculate_monthly_payment 24000 6 ⟨2027, 1, 1⟩ ⟨2025, 1, 15⟩ =
        some (106369/100) ∧
      calculate_interest_rate 24000 (106369/100) ⟨2027, 1, 1⟩ ⟨2025, 1, 15⟩ =
        some (29999/5000) ∧
      |(29999/5000 : ℚ) - 6| ≤ 5/10000) :=
  ⟨by decide, C3_rate_roundtrip_amended ⟨2025, 1, 15⟩ ⟨2027, 1, 1⟩ (by decide)⟩

/-- C3 (counterexample to the claim as stated): for balance 100, rate 5%
and a 12-month horizon the solved payment is 8.56, but the rate solver
returns 5.0782, off the true rate by 0.0782 — far beyond the claimed
0.0005 tolerance. -/
theorem C3_rate_roundtrip_counterexample :
    calculate_monthly_payment 100 5 ⟨2026, 1, 1⟩ ⟨2025, 1, 15⟩ =
      some (214/25) ∧
    calculate_interest_rate 100 (214/25) ⟨2026, 1, 1⟩ ⟨2025, 1, 15⟩ =
      some (25391/5000) ∧
    5/10000 < |(25391/5000 : ℚ) - 5| := by
  refine ⟨by decide, by decide, ?_⟩
  rw [show (25391/5000 : ℚ) - 5 = 391/5000 from by norm_num,
    abs_of_pos (by norm_num)]
  norm_num

end
